import Mathlib

/-!
Verification of the BlackHorseSoundDesigner device-interface core.

This file gives a shallow embedding of the parts of the repository that the
claims concern:

* `app/device_interface/state_sidecar.py` — the fixed-point codec helpers and
  the binary pack/unpack of UI-state snapshots (EQ, crossover).
* `app/ui/crossover_tab.py` (`CrossoverTab._on_send_crossover`) — the COEFF
  payload builder batching (page, subaddress, value) triples.
* `app/device_interface/device_link_manager.py` — the serial-link manager's
  `run` / `run_if_idle` retry and teardown logic.

Modelling conventions:

* Python floats are modelled as exact rationals (`ℚ`) where the source code
  only uses field operations and rounding, and as reals (`ℝ`) where it uses
  `math.log10` / `**`.  Python's `round` (banker's rounding, round half to
  even) is modelled exactly by `pyRound`.
* Python integers are `ℤ`/`ℕ`; the bit operations of the source are written
  with explicit `% 2^w`, `/ 2^w` and `+` (e.g. `v & 0xFF` becomes `v % 256`,
  `(b1 << 8) | b0` becomes `b1 * 256 + b0`, which agree on the byte-sized
  operands the code applies them to).
* `bytes` / `bytearray` are `List ℕ`.  Reading `data[i]` is `data.get? i`
  inside an `Option` monad, so an out-of-bounds read (a Python `IndexError`)
  would surface as `none`; fallible functions return `Option`/`Except`.
* The link manager's state is the pair (open link handle, port name); the
  external transport (`CdcLink`, not part of this repository) is represented
  by the port string it was opened on, and a wrapped operation `fn` by the
  outcome (`some` result or `none` = raises) of each of its invocations.
-/

namespace BHSD

/-! ## Python-style primitives -/

/-- Python 3 `round`: round half to even (banker's rounding). -/
def pyRound {α : Type} [LinearOrderedField α] [FloorRing α] (x : α) : ℤ :=
  if x - ⌊x⌋ < 1 / 2 then ⌊x⌋
  else if 1 / 2 < x - ⌊x⌋ then ⌊x⌋ + 1
  else if ⌊x⌋ % 2 = 0 then ⌊x⌋ else ⌊x⌋ + 1

/-- Python `str.strip()` (whitespace strip), written out so that it reduces
in the kernel (`String.trim` does not). -/
def pyStrip (s : String) : String :=
  String.mk ((s.toList.dropWhile Char.isWhitespace).reverse.dropWhile Char.isWhitespace).reverse

theorem pyRound_le_half {α : Type} [LinearOrderedField α] [FloorRing α] (x : α) :
    (pyRound x : α) ≤ x + 1 / 2 := by
  have h1 : (⌊x⌋ : α) ≤ x := Int.floor_le x
  unfold pyRound
  split_ifs with h2 h3 h4 <;> push_cast <;> linarith

theorem half_le_pyRound {α : Type} [LinearOrderedField α] [FloorRing α] (x : α) :
    x - 1 / 2 ≤ (pyRound x : α) := by
  have h1 : x < ⌊x⌋ + 1 := Int.lt_floor_add_one x
  unfold pyRound
  split_ifs with h2 h3 h4 <;> push_cast <;> linarith

theorem floor_le_pyRound {α : Type} [LinearOrderedField α] [FloorRing α] (x : α) :
    ⌊x⌋ ≤ pyRound x := by
  unfold pyRound
  split_ifs <;> omega

theorem pyRound_le_floor_add_one {α : Type} [LinearOrderedField α] [FloorRing α] (x : α) :
    pyRound x ≤ ⌊x⌋ + 1 := by
  unfold pyRound
  split_ifs <;> omega

theorem pyRound_mono {α : Type} [LinearOrderedField α] [FloorRing α] {x y : α}
    (h : x ≤ y) : pyRound x ≤ pyRound y := by
  rcases lt_or_eq_of_le (Int.floor_mono h) with hf | hf
  · calc pyRound x ≤ ⌊x⌋ + 1 := pyRound_le_floor_add_one x
      _ ≤ ⌊y⌋ := by omega
      _ ≤ pyRound y := floor_le_pyRound y
  · have hxy : x - ⌊x⌋ ≤ y - ⌊y⌋ := by rw [← hf]; linarith
    unfold pyRound
    rw [← hf]
    split_ifs <;> first | omega | linarith

theorem pyRound_intCast {α : Type} [LinearOrderedField α] [FloorRing α] (n : ℤ) :
    pyRound (n : α) = n := by
  unfold pyRound
  rw [Int.floor_intCast]
  split_ifs with h1 h2 h3
  any_goals rfl
  all_goals exfalso; apply h1; norm_num

/-- Evaluate `pyRound` at an argument that is (provably) an integer. -/
theorem pyRound_eq_of_eq_intCast {α : Type} [LinearOrderedField α] [FloorRing α]
    (n : ℤ) (x : α) (h : x = (n : α)) : pyRound x = n := by
  rw [h, pyRound_intCast]

/-- `_clampf` from `state_sidecar.py`:
`return lo if x < lo else hi if x > hi else x`. -/
def _clampf {α : Type} [LinearOrderedField α] (x lo hi : α) : α :=
  if x < lo then lo else if hi < x then hi else x

theorem _clampf_eq_self {α : Type} [LinearOrderedField α] {x lo hi : α}
    (h1 : lo ≤ x) (h2 : x ≤ hi) : _clampf x lo hi = x := by
  unfold _clampf
  split_ifs <;> linarith

theorem _clampf_mono {α : Type} [LinearOrderedField α] {x y : α} (lo hi : α)
    (hlh : lo ≤ hi) (h : x ≤ y) : _clampf x lo hi ≤ _clampf y lo hi := by
  unfold _clampf
  split_ifs <;> linarith

theorem _clampf_le {α : Type} [LinearOrderedField α] (x lo hi : α) (hlh : lo ≤ hi) :
    _clampf x lo hi ≤ hi := by
  unfold _clampf
  split_ifs <;> linarith

theorem le_clampf {α : Type} [LinearOrderedField α] (x lo hi : α) (hlh : lo ≤ hi) :
    lo ≤ _clampf x lo hi := by
  unfold _clampf
  split_ifs <;> linarith

theorem _clampf_idem {α : Type} [LinearOrderedField α] (x lo hi : α) (hlh : lo ≤ hi) :
    _clampf (_clampf x lo hi) lo hi = _clampf x lo hi :=
  _clampf_eq_self (le_clampf x lo hi hlh) (_clampf_le x lo hi hlh)

/-! ## Fixed-point codec (`state_sidecar.py`) -/

/-- `_f0_to_u16_hz`: `int(max(0, min(65535, round(float(f0)))))`. -/
def _f0_to_u16_hz (f0 : ℚ) : ℤ :=
  max 0 (min 65535 (pyRound f0))

/-- `_u16_to_int`: `(b1 << 8) | b0` (the bytes are < 256, so `|` is `+`). -/
def _u16_to_int (b0 b1 : ℕ) : ℕ :=
  b1 * 256 + b0

/-- `_int_to_u16_le`: `v &= 0xFFFF; return (v & 0xFF, (v >> 8) & 0xFF)`. -/
def _int_to_u16_le (v : ℤ) : ℕ × ℕ :=
  ((v % 65536).toNat % 256, (v % 65536).toNat / 256 % 256)

/-- `_q_to_u8` with its default bounds `q_min = 0.1`, `q_max = 10.0` inlined:
clamp `q` to `[0.1, 10]`, map `log10`-space onto `[0,1]`, clamp, scale by 255
and round. -/
noncomputable def _q_to_u8 (q : ℝ) : ℤ :=
  pyRound (_clampf ((Real.logb 10 (_clampf q 0.1 10.0) - Real.logb 10 0.1) /
    (Real.logb 10 10.0 - Real.logb 10 0.1)) 0 1 * 255)

/-- `_u8_to_q` with default bounds inlined: invert the log-linear map. -/
noncomputable def _u8_to_q (code : ℕ) : ℝ :=
  (10 : ℝ) ^ (Real.logb 10 0.1 +
    ((min 255 code : ℕ) : ℝ) / 255 * (Real.logb 10 10.0 - Real.logb 10 0.1))

/-- `_db_to_i8_q25` with default bounds `lo = -24.0`, `hi = 24.0` inlined:
round `clamp(db) * 4`, clamp to int8 and re-encode as a byte (`v & 0xFF`). -/
def _db_to_i8_q25 (db : ℚ) : ℤ :=
  let v := pyRound (_clampf db (-24) 24 * 4)
  let v := if v < -128 then -128 else v
  let v := if v > 127 then 127 else v
  v % 256

/-- `_i8_q25_to_db`: `v = b if b < 128 else b - 256; return float(v) / 4.0`. -/
def _i8_q25_to_db (b : ℤ) : ℚ :=
  ((if b < 128 then b else b - 256 : ℤ) : ℚ) / 4

/-- `_lin_to_i16_q9_7`: scale by 128, round, clamp to int16, mask to 16 bits
and split into little-endian bytes. -/
def _lin_to_i16_q9_7 (x : ℚ) : ℕ × ℕ :=
  let s := pyRound (x * 128)
  let s := if s < -32768 then -32768 else s
  let s := if s > 32767 then 32767 else s
  let w := (s % 65536).toNat
  (w % 256, w / 256 % 256)

/-- `_i16_q9_7_to_lin`: recombine the bytes (`(b1 << 8) | b0`), sign-extend on
bit 15 (`v & 0x8000`) and divide by 128. -/
def _i16_q9_7_to_lin (b0 b1 : ℕ) : ℚ :=
  let v := b1 * 256 + b0
  let vz : ℤ := if v / 32768 % 2 = 1 then (v : ℤ) - 65536 else (v : ℤ)
  (vz : ℚ) / 128

/-- `_ripple_to_u8`: map `[0, 3.0]` dB linearly onto `[0, 255]`. -/
def _ripple_to_u8 (rip_db : ℚ) : ℤ :=
  pyRound (_clampf rip_db 0 3 / 3 * 255) % 256

/-- `_u8_to_ripple`: `(max(0, min(255, int(b))) / 255.0) * 3.0`. -/
def _u8_to_ripple (b : ℕ) : ℚ :=
  ((min 255 b : ℕ) : ℚ) / 255 * 3

/-! ## Domain mappings (UI text ↔ code) -/

def EQ_TYPE_TEXTS : List String :=
  ["Peak (Peaking EQ)", "Low Shelf", "High Shelf", "Low-pass", "High-pass",
   "Band-pass (const peak)", "Notch", "All-pass (Unity)", "All-pass 1st (Phase)",
   "All-pass 2nd (Phase)"]

def XO_MODE_TEXTS : List String :=
  ["All-pass", "Phase shift 1st", "Phase shift 2nd", "Low-pass", "High-pass", "Peaking EQ"]

def XO_TOPO_TEXTS : List String :=
  ["Butterworth 1st", "Butterworth 2nd", "Bessel", "Chebyshev I", "Variable Q 2nd"]

/-! ## EQ sidecar (`pack_eq_state` / `unpack_eq_state`) -/

/-- One EQ band as the UI dictionaries carry it (`type`/`f0`/`q`/`gain_db`).
The same shape is used for the entries fed to `pack_eq_state` and for the
decoded bands returned by `unpack_eq_state`. -/
structure EqBand where
  type : String
  f0 : ℚ
  q : ℝ
  gain_db : ℚ

/-- Result of `unpack_eq_state`: the dict `{"fs": ..., "eq": [...]}`. -/
structure EqState where
  fs : ℕ
  eq : List EqBand

/-- The loop body of `pack_eq_state`: one 5-byte record
`[tcode & 0xFF][f0 u16 le][q8 & 0xFF][g8 & 0xFF]` per band; `tcode` is
`EQ_TYPE_TEXTS.index(type)` with `ValueError` mapped to 0. -/
noncomputable def pack_eq_record (ent : EqBand) : List ℕ :=
  let tcode := if EQ_TYPE_TEXTS.contains ent.type then EQ_TYPE_TEXTS.indexOf ent.type else 0
  let f0 := _f0_to_u16_hz ent.f0
  let q8 := _q_to_u8 ent.q
  let g8 := _db_to_i8_q25 ent.gain_db
  [tcode % 256, (_int_to_u16_le f0).1, (_int_to_u16_le f0).2,
   (q8 % 256).toNat, (g8 % 256).toNat]

/-- `pack_eq_state`: header `[ver=1][fs u16 le][count u8]` then one 5-byte
record per band, at most 255 bands (`n = min(255, len(eq_items))`). -/
noncomputable def pack_eq_state (eq_items : List EqBand) (fs_hz : ℤ) : List ℕ :=
  let n := min 255 eq_items.length
  [1] ++ [(_int_to_u16_le fs_hz).1, (_int_to_u16_le fs_hz).2] ++ [n % 256] ++
    (eq_items.take n).flatMap pack_eq_record

/-- The decoded band built by `unpack_eq_state` from one 5-byte record
`[tcode][f0 lo][f0 hi][q8][g8]`; the type-code falls back to index 0 when it
is outside `EQ_TYPE_TEXTS`. -/
noncomputable def mk_eq_band (tcode f0lo f0hi q8 g8 : ℕ) : EqBand :=
  { type := if tcode < EQ_TYPE_TEXTS.length then EQ_TYPE_TEXTS.getD tcode "" else EQ_TYPE_TEXTS.getD 0 ""
    f0 := (_u16_to_int f0lo f0hi : ℚ)
    q := _u8_to_q q8
    gain_db := _i8_q25_to_db (g8 : ℤ) }

/-- The band-reading loop of `unpack_eq_state`: up to `n` records starting at
`idx`, stopping early (`break`) when fewer than 5 bytes remain.  A `none`
would mean an out-of-bounds read (Python `IndexError`). -/
noncomputable def read_eq_bands (data : List ℕ) : ℕ → ℕ → Option (List EqBand)
  | 0, _ => some []
  | n + 1, idx =>
    if data.length < idx + 5 then some []
    else
      match data.get? idx, data.get? (idx + 1), data.get? (idx + 2),
            data.get? (idx + 3), data.get? (idx + 4) with
      | some tcode, some f0lo, some f0hi, some q8, some g8 =>
        (read_eq_bands data n (idx + 5)).map (fun rest => mk_eq_band tcode f0lo f0hi q8 g8 :: rest)
      | _, _, _, _, _ => none

/-- `unpack_eq_state`: short input yields the default state; otherwise read
`[ver][fs lo][fs hi][count]` and then the band records. -/
noncomputable def unpack_eq_state (data : List ℕ) : Option EqState :=
  if data.length < 4 then some ⟨48000, []⟩
  else
    match data.get? 0, data.get? 1, data.get? 2, data.get? 3 with
    | some _ver, some b1, some b2, some n =>
      (read_eq_bands data n 4).map (fun eq => ⟨_u16_to_int b1 b2, eq⟩)
    | _, _, _, _ => none

/-! ## XO sidecar (`unpack_xo_state`) -/

/-- One crossover row dict (`mode`/`topology`/`f0`/`q`/`ripple_db`). -/
structure XoRow where
  mode : String
  topology : String
  f0 : ℚ
  q : ℝ
  ripple_db : ℚ

/-- The trailing misc dict of the XO sidecar; `none` models the empty dict
left when fewer than 5 trailer bytes remain. -/
structure XoMisc where
  invertA : Bool
  invertB : Bool
  delayA : ℕ
  delayB : ℕ
  gainA_db : ℚ
  gainB_db : ℚ

/-- Result of `unpack_xo_state`. -/
structure XoState where
  fs : ℕ
  A : List XoRow
  B : List XoRow
  misc : Option XoMisc

/-- The decoded row built by `unpack_xo_state` from one 6-byte record
`[mode][topo][f0 lo][f0 hi][q8][r8]`; out-of-range mode/topology codes fall
back to index 0. -/
noncomputable def mk_xo_row (mcode tcode f0lo f0hi q8 r8 : ℕ) : XoRow :=
  { mode := if mcode < XO_MODE_TEXTS.length then XO_MODE_TEXTS.getD mcode "" else XO_MODE_TEXTS.getD 0 ""
    topology := if tcode < XO_TOPO_TEXTS.length then XO_TOPO_TEXTS.getD tcode "" else XO_TOPO_TEXTS.getD 0 ""
    f0 := (_u16_to_int f0lo f0hi : ℚ)
    q := _u8_to_q q8
    ripple_db := _u8_to_ripple r8 }

/-- The `_read_rows` loop of `unpack_xo_state`: up to `n` 6-byte rows starting
at `idx`, stopping early when fewer than 6 bytes remain. -/
noncomputable def read_xo_rows (data : List ℕ) : ℕ → ℕ → Option (List XoRow)
  | 0, _ => some []
  | n + 1, idx =>
    if data.length < idx + 6 then some []
    else
      match data.get? idx, data.get? (idx + 1), data.get? (idx + 2),
            data.get? (idx + 3), data.get? (idx + 4), data.get? (idx + 5) with
      | some mcode, some tcode, some f0lo, some f0hi, some q8, some r8 =>
        (read_xo_rows data n (idx + 6)).map (fun rest => mk_xo_row mcode tcode f0lo f0hi q8 r8 :: rest)
      | _, _, _, _, _, _ => none

/-- The misc trailer of `unpack_xo_state`, read at `idx` when at least 5 bytes
remain: `[flags][delayA][delayB][gainA][gainB]`, flags bit0 = invertA,
bit1 = invertB. -/
noncomputable def read_xo_misc (data : List ℕ) (idx : ℕ) : Option (Option XoMisc) :=
  if data.length < idx + 5 then some none
  else
    match data.get? idx, data.get? (idx + 1), data.get? (idx + 2),
          data.get? (idx + 3), data.get? (idx + 4) with
    | some flags, some dA, some dB, some gA, some gB =>
      some (some { invertA := flags % 2 = 1
                   invertB := flags / 2 % 2 = 1
                   delayA := dA
                   delayB := dB
                   gainA_db := _i8_q25_to_db (gA : ℤ)
                   gainB_db := _i8_q25_to_db (gB : ℤ) })
    | _, _, _, _, _ => none

/-- `unpack_xo_state`: short input yields the default; otherwise read the
header `[ver][fs lo][fs hi][cntA][cntB]`, the A rows from index 5, the B rows
right after them, and the misc trailer after those (the source tracks the
shared cursor `idx`, which after the row loops equals `5 + 6*len(A) + 6*len(B)`). -/
noncomputable def unpack_xo_state (data : List ℕ) : Option XoState :=
  if data.length < 6 then some ⟨48000, [], [], none⟩
  else
    match data.get? 1, data.get? 2, data.get? 3, data.get? 4 with
    | some b1, some b2, some cntA, some cntB =>
      (read_xo_rows data cntA 5).bind (fun A =>
        (read_xo_rows data cntB (5 + 6 * A.length)).bind (fun B =>
          (read_xo_misc data (5 + 6 * A.length + 6 * B.length)).map (fun misc =>
            ⟨_u16_to_int b1 b2, A, B, misc⟩)))
    | _, _, _, _ => none

/-! ## COEFF payload builder (`CrossoverTab._on_send_crossover`) -/

/-- The per-section payload loop of `_on_send_crossover`: given the running
`cur_page` (initially `None`), emit for each `(page, sub, val)` triple a
page-select preamble `[0xFD, page & 0xFF]` when `page != cur_page`, then the
5-byte unit `[0x80 | (sub & 0x7F), val>>24 & 0xFF, val>>16 & 0xFF,
val>>8 & 0xFF, val & 0xFF]` (most-significant byte first). -/
def send_crossover_body : Option ℕ → List (ℕ × ℕ × ℕ) → List ℕ
  | _, [] => []
  | cur, (p, s, v) :: rest =>
    (if some p = cur then [] else [0xFD, p % 256]) ++
    [128 + s % 128, v / 2 ^ 24 % 256, v / 2 ^ 16 % 256, v / 2 ^ 8 % 256, v % 256] ++
    send_crossover_body (some p) rest

/-- The full COEFF payload of `_on_send_crossover`: the hard-coded 7-bit bus
address `0x4A` first, then the page-batched register units. -/
def send_crossover_payload (items : List (ℕ × ℕ × ℕ)) : List ℕ :=
  0x4A :: send_crossover_body none items

/-- Modelled from the spec's words for C3: one 5-byte register unit. -/
def spec_reg_unit (t : ℕ × ℕ × ℕ) : List ℕ :=
  [128 + t.2.1 % 128, t.2.2 / 2 ^ 24 % 256, t.2.2 / 2 ^ 16 % 256, t.2.2 / 2 ^ 8 % 256, t.2.2 % 256]

/-- Modelled from the spec's words for C3: after the first triple, a preamble
is emitted exactly when a triple's page differs from the previous triple's
page. -/
def spec_body_after (prev : ℕ) : List (ℕ × ℕ × ℕ) → List ℕ
  | [] => []
  | t :: rest =>
    (if t.1 = prev then [] else [0xFD, t.1 % 256]) ++ spec_reg_unit t ++ spec_body_after t.1 rest

/-- Modelled from the spec's words for C3: the first triple always gets a
page-select preamble; later triples get one exactly on page changes. -/
def spec_body : List (ℕ × ℕ × ℕ) → List ℕ
  | [] => []
  | t :: rest => [0xFD, t.1 % 256] ++ spec_reg_unit t ++ spec_body_after t.1 rest

/-! ## Device link manager (`device_link_manager.py`) -/

/-- Observable transport events of one manager operation: closing the open
transport, opening a transport on a port, and the i-th invocation of the
wrapped function. -/
inductive Ev where
  | close : Ev
  | openLink : String → Ev
  | invoke : ℕ → Ev
deriving DecidableEq

/-- The manager's link state: `self._link` (the open `CdcLink`, represented
by the port it was opened on) and `self._port`. -/
structure MgrState where
  link : Option String
  port : String
deriving DecidableEq

/-- The exceptions `run`/`run_if_idle` can propagate: the `RuntimeError` of a
failed connect/auto-detect, or the exception raised by the i-th invocation of
the wrapped function. -/
inductive PyExc where
  | noDeviceFound : PyExc
  | fnExc : ℕ → PyExc
deriving DecidableEq

/-- `is_connected`: `self._link is not None`. -/
def is_connected (s : MgrState) : Bool :=
  s.link.isSome

/-- `current_port`: `self._port if self._link is not None else ""`. -/
def current_port (s : MgrState) : String :=
  if s.link.isSome then s.port else ""

/-- `_close_locked`: best-effort close of the open link (an event only when a
link is open; close errors are swallowed), then reset both fields. -/
def close_locked (s : MgrState) : MgrState × List Ev :=
  (⟨none, ""⟩, if s.link.isSome then [Ev.close] else [])

/-- Python truthiness of the `port` argument (`if port and ...`): not `None`
and not the empty string. -/
def pyTruthyPort : Option String → Bool
  | none => false
  | some str => str != ""

/-- The tail of `connect`/`_ensure_link_locked`: resolve the target port
(`(port or "").strip()`, falling back to `auto_detect_port()` when empty and
`auto`), raise `RuntimeError` when none, else open a new link.  `detect` is
the result of the external `auto_detect_port()` (empty = no device). -/
def open_target (detect : String) (port : Option String) (auto : Bool)
    (s : MgrState) (evs : List Ev) : Except Unit String × MgrState × List Ev :=
  let t0 := pyStrip (port.getD "")
  let t := if t0 == "" && auto then detect else t0
  if t == "" then (Except.error (), s, evs)
  else (Except.ok t, ⟨some t, t⟩, evs ++ [Ev.openLink t])

/-- `_ensure_link_locked`: reuse the open link unless a different port was
explicitly requested (then close it first); otherwise open the target port. -/
def ensure_link_locked (detect : String) (port : Option String) (auto : Bool)
    (s : MgrState) : Except Unit String × MgrState × List Ev :=
  match s.link with
  | some l =>
    if pyTruthyPort port && (port.getD "" != s.port) then
      open_target detect port auto (close_locked s).1 (close_locked s).2
    else (Except.ok l, s, [])
  | none => open_target detect port auto s []

/-- `run`: ensure a link, invoke `fn`; on failure close the link and either
re-raise (`retry=False`) or reconnect once and invoke `fn` exactly once more,
letting any error of that second attempt propagate.  `fnBeh i l` is the
outcome of the i-th invocation of the wrapped function on link `l`
(`none` = it raises). -/
def run {T : Type} (detect : String) (fnBeh : ℕ → String → Option T)
    (port : Option String) (auto retry : Bool) (s : MgrState) :
    Except PyExc T × MgrState × List Ev :=
  match ensure_link_locked detect port auto s with
  | (Except.error _, s1, evs1) => (Except.error PyExc.noDeviceFound, s1, evs1)
  | (Except.ok l1, s1, evs1) =>
    match fnBeh 0 l1 with
    | some v => (Except.ok v, s1, evs1 ++ [Ev.invoke 0])
    | none =>
      if retry then
        match ensure_link_locked detect port auto (close_locked s1).1 with
        | (Except.error _, s3, evs3) =>
          (Except.error PyExc.noDeviceFound, s3, evs1 ++ [Ev.invoke 0] ++ (close_locked s1).2 ++ evs3)
        | (Except.ok l2, s3, evs3) =>
          match fnBeh 1 l2 with
          | some v => (Except.ok v, s3, evs1 ++ [Ev.invoke 0] ++ (close_locked s1).2 ++ evs3 ++ [Ev.invoke 1])
          | none =>
            (Except.error (PyExc.fnExc 1), s3, evs1 ++ [Ev.invoke 0] ++ (close_locked s1).2 ++ evs3 ++ [Ev.invoke 1])
      else
        (Except.error (PyExc.fnExc 0), (close_locked s1).1, evs1 ++ [Ev.invoke 0] ++ (close_locked s1).2)

/-- `run_if_idle`: a non-blocking `acquire(blocking=False)`; when the lock is
held by another caller (`lockHeld`), return `None` at once with no link
activity, else execute the same body as `run` (the source duplicates the body
verbatim inside the `try/finally`). -/
def run_if_idle {T : Type} (detect : String) (fnBeh : ℕ → String → Option T)
    (port : Option String) (auto retry : Bool) (lockHeld : Bool) (s : MgrState) :
    Option (Except PyExc T) × MgrState × List Ev :=
  if lockHeld then (none, s, [])
  else
    match ensure_link_locked detect port auto s with
    | (Except.error _, s1, evs1) => (some (Except.error PyExc.noDeviceFound), s1, evs1)
    | (Except.ok l1, s1, evs1) =>
      match fnBeh 0 l1 with
      | some v => (some (Except.ok v), s1, evs1 ++ [Ev.invoke 0])
      | none =>
        if retry then
          match ensure_link_locked detect port auto (close_locked s1).1 with
          | (Except.error _, s3, evs3) =>
            (some (Except.error PyExc.noDeviceFound), s3, evs1 ++ [Ev.invoke 0] ++ (close_locked s1).2 ++ evs3)
          | (Except.ok l2, s3, evs3) =>
            match fnBeh 1 l2 with
            | some v => (some (Except.ok v), s3, evs1 ++ [Ev.invoke 0] ++ (close_locked s1).2 ++ evs3 ++ [Ev.invoke 1])
            | none =>
              (some (Except.error (PyExc.fnExc 1)), s3, evs1 ++ [Ev.invoke 0] ++ (close_locked s1).2 ++ evs3 ++ [Ev.invoke 1])
        else
          (some (Except.error (PyExc.fnExc 0)), (close_locked s1).1, evs1 ++ [Ev.invoke 0] ++ (close_locked s1).2)

/-! ## Helper lemmas -/

theorem send_crossover_body_some (prev : ℕ) (items : List (ℕ × ℕ × ℕ)) :
    send_crossover_body (some prev) items = spec_body_after prev items := by
  induction items generalizing prev with
  | nil => rfl
  | cons t rest ih =>
    obtain ⟨p, sub, v⟩ := t
    by_cases hp : p = prev
    · simp [send_crossover_body, spec_body_after, spec_reg_unit, hp, ih]
    · simp [send_crossover_body, spec_body_after, spec_reg_unit, hp, ih]

theorem flatMap_length_const {α : Type} (l : List α) (f : α → List ℕ) (k : ℕ)
    (h : ∀ x, (f x).length = k) : (l.flatMap f).length = k * l.length := by
  induction l with
  | nil => simp
  | cons a t ih => simp [List.flatMap_cons, h, ih]; ring

theorem get?_eq_some_getD (l : List ℕ) (i : ℕ) (h : i < l.length) :
    l.get? i = some (l.getD i 0) := by
  induction l generalizing i with
  | nil => simp at h
  | cons a t ih =>
    cases i with
    | zero => rfl
    | succ j =>
      rw [List.get?_cons_succ, List.getD_cons_succ]
      exact ih j (by simpa using h)

/-- The band `unpack_eq_state` decodes from the 5 bytes at `idx`. -/
noncomputable def eq_band_at (data : List ℕ) (idx : ℕ) : EqBand :=
  mk_eq_band (data.getD idx 0) (data.getD (idx + 1) 0) (data.getD (idx + 2) 0)
    (data.getD (idx + 3) 0) (data.getD (idx + 4) 0)

/-- The row `unpack_xo_state` decodes from the 6 bytes at `idx`. -/
noncomputable def xo_row_at (data : List ℕ) (idx : ℕ) : XoRow :=
  mk_xo_row (data.getD idx 0) (data.getD (idx + 1) 0) (data.getD (idx + 2) 0)
    (data.getD (idx + 3) 0) (data.getD (idx + 4) 0) (data.getD (idx + 5) 0)

theorem read_eq_bands_spec (data : List ℕ) :
    ∀ n idx, ∃ bands, read_eq_bands data n idx = some bands ∧
      bands.length = min n ((data.length - idx) / 5) ∧
      ∀ j, j < bands.length → bands.get? j = some (eq_band_at data (idx + 5 * j)) := by
  intro n
  induction n with
  | zero =>
    intro idx
    exact ⟨[], rfl, by simp, by intro j hj; simp at hj⟩
  | succ n ih =>
    intro idx
    by_cases hlen : data.length < idx + 5
    · refine ⟨[], ?_, ?_, ?_⟩
      · simp [read_eq_bands, hlen]
      · have h0 : (data.length - idx) / 5 = 0 := by omega
        simp [h0]
      · intro j hj; simp at hj
    · obtain ⟨rest, hr, hrl, hrj⟩ := ih (idx + 5)
      refine ⟨eq_band_at data idx :: rest, ?_, ?_, ?_⟩
      · simp only [read_eq_bands, if_neg hlen]
        rw [get?_eq_some_getD data idx (by omega), get?_eq_some_getD data (idx + 1) (by omega),
          get?_eq_some_getD data (idx + 2) (by omega), get?_eq_some_getD data (idx + 3) (by omega),
          get?_eq_some_getD data (idx + 4) (by omega), hr]
        rfl
      · simp only [List.length_cons, hrl]
        omega
      · intro j hj
        cases j with
        | zero =>
          simp only [List.get?_cons_zero, Option.some.injEq]
          simp [eq_band_at]
        | succ k =>
          have hk : k < rest.length := by
            simp only [List.length_cons] at hj
            omega
          rw [List.get?_cons_succ, hrj k hk]
          congr 2 <;> omega

theorem read_xo_rows_spec (data : List ℕ) :
    ∀ n idx, ∃ rows, read_xo_rows data n idx = some rows ∧
      rows.length = min n ((data.length - idx) / 6) ∧
      ∀ j, j < rows.length → rows.get? j = some (xo_row_at data (idx + 6 * j)) := by
  intro n
  induction n with
  | zero =>
    intro idx
    exact ⟨[], rfl, by simp, by intro j hj; simp at hj⟩
  | succ n ih =>
    intro idx
    by_cases hlen : data.length < idx + 6
    · refine ⟨[], ?_, ?_, ?_⟩
      · simp [read_xo_rows, hlen]
      · have h0 : (data.length - idx) / 6 = 0 := by omega
        simp [h0]
      · intro j hj; simp at hj
    · obtain ⟨rest, hr, hrl, hrj⟩ := ih (idx + 6)
      refine ⟨xo_row_at data idx :: rest, ?_, ?_, ?_⟩
      · simp only [read_xo_rows, if_neg hlen]
        rw [get?_eq_some_getD data idx (by omega), get?_eq_some_getD data (idx + 1) (by omega),
          get?_eq_some_getD data (idx + 2) (by omega), get?_eq_some_getD data (idx + 3) (by omega),
          get?_eq_some_getD data (idx + 4) (by omega), get?_eq_some_getD data (idx + 5) (by omega),
          hr]
        rfl
      · simp only [List.length_cons, hrl]
        omega
      · intro j hj
        cases j with
        | zero =>
          simp only [List.get?_cons_zero, Option.some.injEq]
          simp [xo_row_at]
        | succ k =>
          have hk : k < rest.length := by
            simp only [List.length_cons] at hj
            omega
          rw [List.get?_cons_succ, hrj k hk]
          congr 2 <;> omega

theorem read_xo_misc_isSome (data : List ℕ) (idx : ℕ) :
    ∃ m, read_xo_misc data idx = some m := by
  by_cases hlen : data.length < idx + 5
  · exact ⟨none, by simp [read_xo_misc, hlen]⟩
  · apply Option.isSome_iff_exists.mp
    simp only [read_xo_misc, if_neg hlen]
    rw [get?_eq_some_getD data idx (by omega), get?_eq_some_getD data (idx + 1) (by omega),
      get?_eq_some_getD data (idx + 2) (by omega), get?_eq_some_getD data (idx + 3) (by omega),
      get?_eq_some_getD data (idx + 4) (by omega)]
    rfl

theorem unpack_eq_state_spec (data : List ℕ) (h4 : 4 ≤ data.length) :
    ∃ st, unpack_eq_state data = some st ∧
      st.eq.length = min (data.getD 3 0) ((data.length - 4) / 5) ∧
      ∀ j, j < st.eq.length → st.eq.get? j = some (eq_band_at data (4 + 5 * j)) := by
  obtain ⟨bands, hb, hbl, hbj⟩ := read_eq_bands_spec data (data.getD 3 0) 4
  refine ⟨⟨_u16_to_int (data.getD 1 0) (data.getD 2 0), bands⟩, ?_, hbl, hbj⟩
  simp only [unpack_eq_state, if_neg (by omega : ¬data.length < 4)]
  rw [get?_eq_some_getD data 0 (by omega), get?_eq_some_getD data 1 (by omega),
    get?_eq_some_getD data 2 (by omega), get?_eq_some_getD data 3 (by omega)]
  rw [show (match some (data.getD 0 0), some (data.getD 1 0), some (data.getD 2 0),
        some (data.getD 3 0) with
      | some _ver, some b1, some b2, some n =>
        (read_eq_bands data n 4).map (fun eq => (⟨_u16_to_int b1 b2, eq⟩ : EqState))
      | _, _, _, _ => none) =
      (read_eq_bands data (data.getD 3 0) 4).map
        (fun eq => (⟨_u16_to_int (data.getD 1 0) (data.getD 2 0), eq⟩ : EqState))
      from rfl]
  rw [hb, Option.map_some']

theorem unpack_xo_state_spec (data : List ℕ) (h6 : 6 ≤ data.length) :
    ∃ st, unpack_xo_state data = some st ∧
      st.A.length = min (data.getD 3 0) ((data.length - 5) / 6) ∧
      (∀ j, j < st.A.length → st.A.get? j = some (xo_row_at data (5 + 6 * j))) ∧
      st.B.length = min (data.getD 4 0) ((data.length - (5 + 6 * st.A.length)) / 6) ∧
      (∀ j, j < st.B.length →
        st.B.get? j = some (xo_row_at data (5 + 6 * st.A.length + 6 * j))) := by
  obtain ⟨A, hA, hAl, hAj⟩ := read_xo_rows_spec data (data.getD 3 0) 5
  obtain ⟨B, hB, hBl, hBj⟩ := read_xo_rows_spec data (data.getD 4 0) (5 + 6 * A.length)
  obtain ⟨m, hm⟩ := read_xo_misc_isSome data (5 + 6 * A.length + 6 * B.length)
  refine ⟨⟨_u16_to_int (data.getD 1 0) (data.getD 2 0), A, B, m⟩, ?_, hAl, hAj, hBl, hBj⟩
  simp only [unpack_xo_state, if_neg (by omega : ¬data.length < 6)]
  rw [get?_eq_some_getD data 1 (by omega), get?_eq_some_getD data 2 (by omega),
    get?_eq_some_getD data 3 (by omega), get?_eq_some_getD data 4 (by omega)]
  rw [show (match some (data.getD 1 0), some (data.getD 2 0), some (data.getD 3 0),
        some (data.getD 4 0) with
      | some b1, some b2, some cntA, some cntB =>
        (read_xo_rows data cntA 5).bind (fun A =>
          (read_xo_rows data cntB (5 + 6 * A.length)).bind (fun B =>
            (read_xo_misc data (5 + 6 * A.length + 6 * B.length)).map (fun misc =>
              (⟨_u16_to_int b1 b2, A, B, misc⟩ : XoState))))
      | _, _, _, _ => none) =
      (read_xo_rows data (data.getD 3 0) 5).bind (fun A =>
        (read_xo_rows data (data.getD 4 0) (5 + 6 * A.length)).bind (fun B =>
          (read_xo_misc data (5 + 6 * A.length + 6 * B.length)).map (fun misc =>
            (⟨_u16_to_int (data.getD 1 0) (data.getD 2 0), A, B, misc⟩ : XoState))))
      from rfl]
  rw [hA, Option.some_bind, hB, Option.some_bind, hm, Option.map_some']

theorem open_target_ok_shape (detect : String) (port : Option String) (auto : Bool)
    (s : MgrState) (evs : List Ev) (l : String) (s1 : MgrState) (evs1 : List Ev)
    (h : open_target detect port auto s evs = (Except.ok l, s1, evs1)) :
    s1 = ⟨some l, l⟩ ∧ evs1 = evs ++ [Ev.openLink l] := by
  simp only [open_target] at h
  split at h
  all_goals split at h
  · exact Except.noConfusion (congrArg Prod.fst h)
  · simp only [Prod.mk.injEq, Except.ok.injEq] at h
    obtain ⟨h1, h2, h3⟩ := h
    subst h1
    exact ⟨h2.symm, h3.symm⟩
  · exact Except.noConfusion (congrArg Prod.fst h)
  · simp only [Prod.mk.injEq, Except.ok.injEq] at h
    obtain ⟨h1, h2, h3⟩ := h
    subst h1
    exact ⟨h2.symm, h3.symm⟩

theorem ensure_ok_shape (detect : String) (port : Option String) (auto : Bool)
    (s : MgrState) (l : String) (s1 : MgrState) (evs1 : List Ev)
    (h : ensure_link_locked detect port auto s = (Except.ok l, s1, evs1)) :
    s1.link = some l ∧ ∀ i, Ev.invoke i ∉ evs1 := by
  cases hsl : s.link with
  | some l0 =>
    simp only [ensure_link_locked, hsl] at h
    by_cases hcond : (pyTruthyPort port && (port.getD "" != s.port)) = true
    · rw [if_pos hcond] at h
      obtain ⟨h1, h2⟩ := open_target_ok_shape _ _ _ _ _ _ _ _ h
      subst h1 h2
      refine ⟨rfl, ?_⟩
      intro i
      simp [close_locked, hsl]
    · rw [if_neg hcond] at h
      simp only [Prod.mk.injEq, Except.ok.injEq] at h
      obtain ⟨h1, h2, h3⟩ := h
      subst h1 h2 h3
      exact ⟨hsl, by intro i; simp⟩
  | none =>
    simp only [ensure_link_locked, hsl] at h
    obtain ⟨h1, h2⟩ := open_target_ok_shape _ _ _ _ _ _ _ _ h
    subst h1 h2
    exact ⟨rfl, by intro i; simp⟩

/-! ## Claims -/

/-- C3: the COEFF payload builder of `_on_send_crossover` emits the bus
address byte `0x4A` first; an empty triple list yields exactly `[0x4A]`; and
for every triple list the body consists, per triple, of a two-byte
page-select preamble (`0xFD` then the page byte) exactly when the triple's
page differs from the previous triple's page (the first triple always gets
one), followed by the 5-byte unit `sub|0x80` plus the 32-bit value
most-significant byte first — as captured by the spec-side `spec_body`. -/
theorem send_crossover_payload_layout :
    send_crossover_payload [] = [0x4A] ∧
    ∀ items : List (ℕ × ℕ × ℕ), send_crossover_payload items = 0x4A :: spec_body items := by
  constructor
  · rfl
  · intro items
    cases items with
    | nil => rfl
    | cons t rest =>
      obtain ⟨p, sub, v⟩ := t
      simp [send_crossover_payload, send_crossover_body, spec_body, spec_reg_unit,
        send_crossover_body_some]

/-- C10: `pack_eq_state` never fails on oversized input: the payload length is
exactly `4 + 5 * min 255 n`, the count byte (offset 3) is `min 255 n`, and
items beyond the 255th are silently dropped (packing the full list equals
packing its first 255 items). -/
theorem pack_eq_state_count_bound :
    ∀ (items : List EqBand) (fs : ℤ),
      (pack_eq_state items fs).length = 4 + 5 * min 255 items.length ∧
      (pack_eq_state items fs).getD 3 0 = min 255 items.length ∧
      pack_eq_state items fs = pack_eq_state (items.take 255) fs := by
  intro items fs
  refine ⟨?_, ?_, ?_⟩
  · simp only [pack_eq_state]
    rw [List.length_append, List.length_append, List.length_append,
      flatMap_length_const _ pack_eq_record 5 (fun x => rfl), List.length_take]
    simp only [List.length_cons, List.length_nil]
    omega
  · simp only [pack_eq_state]
    have : min 255 items.length % 256 = min 255 items.length := by omega
    simp [List.getD, this]
  · have hmin : min 255 (items.take 255).length = min 255 items.length := by
      simp [List.length_take]
    have htake : (items.take 255).take (min 255 items.length) =
        items.take (min 255 items.length) := by
      rw [List.take_take]
      congr 1
      omega
    simp only [pack_eq_state]
    rw [hmin, htake]

/-- C6: the quality-factor encoding `_q_to_u8` (log-linear map of
`clamp(q, 0.1, 10)` onto `[0, 255]`) is monotone: `q1 < q2` implies
`code(q1) <= code(q2)`. -/
theorem q_to_u8_monotone :
    ∀ q1 q2 : ℝ, q1 < q2 → _q_to_u8 q1 ≤ _q_to_u8 q2 := by
  intro q1 q2 h
  unfold _q_to_u8
  apply pyRound_mono
  have hlh : (0.1 : ℝ) ≤ 10.0 := by norm_num
  have hq1 : (0.1 : ℝ) ≤ _clampf q1 0.1 10.0 := le_clampf _ _ _ hlh
  have hc : _clampf q1 0.1 10.0 ≤ _clampf q2 0.1 10.0 := _clampf_mono _ _ hlh h.le
  have hp1 : (0 : ℝ) < _clampf q1 0.1 10.0 := lt_of_lt_of_le (by norm_num) hq1
  have hlog : Real.logb 10 (_clampf q1 0.1 10.0) ≤ Real.logb 10 (_clampf q2 0.1 10.0) :=
    Real.logb_le_logb_of_le (by norm_num) hp1 hc
  have hden : Real.logb 10 10.0 - Real.logb 10 0.1 = 2 := by
    rw [show (10.0 : ℝ) = 10 by norm_num, show (0.1 : ℝ) = (10 : ℝ)⁻¹ by norm_num,
      Real.logb_inv, Real.logb_self_eq_one (by norm_num)]
    norm_num
  rw [hden]
  apply mul_le_mul_of_nonneg_right _ (by norm_num : (0 : ℝ) ≤ 255)
  apply _clampf_mono _ _ (by norm_num : (0 : ℝ) ≤ 1)
  linarith

/-- C6 witness: the monotonicity theorem applied at the concrete pair
`q1 = 1 < q2 = 2`. -/
theorem q_to_u8_monotone_witness :
    (1 : ℝ) < 2 ∧ _q_to_u8 1 ≤ _q_to_u8 2 :=
  ⟨by norm_num, q_to_u8_monotone 1 2 (by norm_num)⟩

/-- C7: every codec encoder clamps instead of failing: for all inputs
(in-range or not), `encode x = encode (clamp x)` with the format's domain
bounds — `[0, 65535]` Hz for frequency, `[0.1, 10]` for Q, `[-24, 24]` dB
for the gain code, `[0, 3]` dB for ripple, and `[-32768/128, 32767/128]` for
Q9.7 linear gain.  (No encoder can raise: each is a total function.) -/
theorem encode_clamps_out_of_range :
    (∀ x : ℚ, _f0_to_u16_hz x = _f0_to_u16_hz (_clampf x 0 65535)) ∧
    (∀ x : ℝ, _q_to_u8 x = _q_to_u8 (_clampf x 0.1 10.0)) ∧
    (∀ x : ℚ, _db_to_i8_q25 x = _db_to_i8_q25 (_clampf x (-24) 24)) ∧
    (∀ x : ℚ, _ripple_to_u8 x = _ripple_to_u8 (_clampf x 0 3)) ∧
    (∀ x : ℚ, _lin_to_i16_q9_7 x = _lin_to_i16_q9_7 (_clampf x (-256) (32767 / 128))) := by
  refine ⟨?_, ?_, ?_, ?_, ?_⟩
  · intro x
    by_cases hx1 : x < 0
    · have hcl : _clampf x 0 65535 = 0 := by unfold _clampf; rw [if_pos hx1]
      have hub : (pyRound x : ℚ) ≤ x + 1 / 2 := pyRound_le_half x
      have h1 : (pyRound x : ℚ) < 1 := by linarith
      have h1' : pyRound x < 1 := by exact_mod_cast h1
      have h0 : pyRound (0 : ℚ) = 0 := pyRound_eq_of_eq_intCast 0 _ (by norm_num)
      rw [hcl]
      unfold _f0_to_u16_hz
      rw [h0]
      omega
    · by_cases hx2 : 65535 < x
      · have hcl : _clampf x 0 65535 = 65535 := by
          unfold _clampf
          rw [if_neg (by linarith), if_pos hx2]
        have hlb : x - 1 / 2 ≤ (pyRound x : ℚ) := half_le_pyRound x
        have h1 : (65534 : ℚ) < (pyRound x : ℚ) := by linarith
        have h1' : 65534 < pyRound x := by exact_mod_cast h1
        have h65 : pyRound (65535 : ℚ) = 65535 := pyRound_eq_of_eq_intCast 65535 _ (by norm_num)
        rw [hcl]
        unfold _f0_to_u16_hz
        rw [h65]
        omega
      · rw [_clampf_eq_self (by linarith) (by linarith)]
  · intro x
    unfold _q_to_u8
    rw [_clampf_idem x 0.1 10.0 (by norm_num)]
  · intro x
    unfold _db_to_i8_q25
    rw [_clampf_idem x (-24) 24 (by norm_num)]
  · intro x
    unfold _ripple_to_u8
    rw [_clampf_idem x 0 3 (by norm_num)]
  · intro x
    by_cases hx1 : x < -256
    · have hcl : _clampf x (-256) (32767 / 128) = -256 := by unfold _clampf; rw [if_pos hx1]
      have hub : (pyRound (x * 128) : ℚ) ≤ x * 128 + 1 / 2 := pyRound_le_half _
      have h1 : (pyRound (x * 128) : ℚ) < -32767 := by linarith
      have h1' : pyRound (x * 128) < -32767 := by exact_mod_cast h1
      have hm : pyRound ((-256 : ℚ) * 128) = -32768 :=
        pyRound_eq_of_eq_intCast (-32768) _ (by norm_num)
      rw [hcl]
      simp only [_lin_to_i16_q9_7]
      rw [hm]
      have hL : (if pyRound (x * 128) < -32768 then (-32768 : ℤ) else pyRound (x * 128)) = -32768 := by
        omega
      rw [hL]
      norm_num
    · by_cases hx2 : 32767 / 128 < x
      · have hcl : _clampf x (-256) (32767 / 128) = 32767 / 128 := by
          unfold _clampf
          rw [if_neg (by linarith), if_pos hx2]
        have hlb : x * 128 - 1 / 2 ≤ (pyRound (x * 128) : ℚ) := half_le_pyRound _
        have h1 : (32766 : ℚ) < (pyRound (x * 128) : ℚ) := by
          have : (32767 : ℚ) < x * 128 := by linarith
          linarith
        have h1' : 32766 < pyRound (x * 128) := by exact_mod_cast h1
        have hm : pyRound ((32767 : ℚ) / 128 * 128) = 32767 := by
          have : (32767 : ℚ) / 128 * 128 = ((32767 : ℤ) : ℚ) := by norm_num
          rw [this, pyRound_intCast]
        rw [hcl]
        simp only [_lin_to_i16_q9_7]
        rw [hm]
        have hL : (if pyRound (x * 128) < -32768 then (-32768 : ℤ) else pyRound (x * 128)) =
            pyRound (x * 128) := by omega
        rw [hL]
        have hH : (if pyRound (x * 128) > 32767 then (32767 : ℤ) else pyRound (x * 128)) = 32767 := by
          by_cases h : pyRound (x * 128) > 32767
          · rw [if_pos h]
          · rw [if_neg h]; omega
        rw [hH]
        norm_num
      · rw [_clampf_eq_self (by linarith) (by linarith)]

/-- C5: round-trip stability up to quantization.  For every dB gain in
`[-24, 24]`, decoding the signed-8-bit 0.25 dB code recovers the value within
1/4 dB; for every linear gain whose scaled value `round(x * 128)` lies in the
int16 range, decoding the Q9.7 encoding recovers the value within 1/128. -/
theorem codec_roundtrip_quantization :
    (∀ db : ℚ, -24 ≤ db → db ≤ 24 →
      |_i8_q25_to_db (_db_to_i8_q25 db) - db| ≤ 1 / 4) ∧
    (∀ x : ℚ, -32768 ≤ pyRound (x * 128) → pyRound (x * 128) ≤ 32767 →
      |_i16_q9_7_to_lin (_lin_to_i16_q9_7 x).1 (_lin_to_i16_q9_7 x).2 - x| ≤ 1 / 128) := by
  constructor
  · intro db h1 h2
    have hc : _clampf db (-24) 24 = db := _clampf_eq_self h1 h2
    have hub : (pyRound (db * 4) : ℚ) ≤ db * 4 + 1 / 2 := pyRound_le_half _
    have hlb : db * 4 - 1 / 2 ≤ (pyRound (db * 4) : ℚ) := half_le_pyRound _
    have hub' : pyRound (db * 4) ≤ 96 := by
      have h97 : (pyRound (db * 4) : ℚ) < 97 := by linarith
      have := (by exact_mod_cast h97 : pyRound (db * 4) < 97)
      omega
    have hlb' : -96 ≤ pyRound (db * 4) := by
      have h97 : (-97 : ℚ) < (pyRound (db * 4) : ℚ) := by linarith
      have := (by exact_mod_cast h97 : -97 < pyRound (db * 4))
      omega
    simp only [_db_to_i8_q25, hc]
    have hA : ¬(pyRound (db * 4) < -128) := by omega
    rw [if_neg hA]
    have hB : ¬(pyRound (db * 4) > 127) := by omega
    rw [if_neg hB]
    simp only [_i8_q25_to_db]
    have hsel : (if pyRound (db * 4) % 256 < 128 then pyRound (db * 4) % 256
        else pyRound (db * 4) % 256 - 256) = pyRound (db * 4) := by omega
    rw [hsel, abs_le]
    constructor <;> linarith
  · intro x hlo hhi
    have hub : (pyRound (x * 128) : ℚ) ≤ x * 128 + 1 / 2 := pyRound_le_half _
    have hlb : x * 128 - 1 / 2 ≤ (pyRound (x * 128) : ℚ) := half_le_pyRound _
    simp only [_lin_to_i16_q9_7]
    have hA : ¬(pyRound (x * 128) < -32768) := by omega
    rw [if_neg hA]
    have hB : ¬(pyRound (x * 128) > 32767) := by omega
    rw [if_neg hB]
    simp only [_i16_q9_7_to_lin]
    have hvz : (if ((pyRound (x * 128) % 65536).toNat / 256 % 256 * 256 +
          (pyRound (x * 128) % 65536).toNat % 256) / 32768 % 2 = 1 then
          (((pyRound (x * 128) % 65536).toNat / 256 % 256 * 256 +
            (pyRound (x * 128) % 65536).toNat % 256 : ℕ) : ℤ) - 65536
        else (((pyRound (x * 128) % 65536).toNat / 256 % 256 * 256 +
            (pyRound (x * 128) % 65536).toNat % 256 : ℕ) : ℤ)) = pyRound (x * 128) := by
      split_ifs with h <;> omega
    rw [hvz, abs_le]
    constructor <;> linarith

/-- C8: `unpack_eq_state` is total (the `Option`-monad read model never hits
an out-of-bounds index, so no read past the buffer end and no raise), and on
a truncated blob whose header count `n` exceeds the `k` complete 5-byte
records actually present it returns exactly `k` decoded bands. -/
theorem unpack_eq_state_truncation :
    (∀ data : List ℕ, (unpack_eq_state data).isSome = true) ∧
    (∀ data : List ℕ, 4 ≤ data.length → (data.length - 4) / 5 < data.getD 3 0 →
      ∃ st, unpack_eq_state data = some st ∧ st.eq.length = (data.length - 4) / 5) := by
  constructor
  · intro data
    by_cases h4 : data.length < 4
    · simp [unpack_eq_state, h4]
    · obtain ⟨st, hst, -, -⟩ := unpack_eq_state_spec data (by omega)
      rw [hst]
      rfl
  · intro data h4 hk
    obtain ⟨st, hst, hl, -⟩ := unpack_eq_state_spec data h4
    exact ⟨st, hst, by rw [hl]; omega⟩

/-- C8 witness: the truncation theorem applied to a concrete 14-byte blob
whose header claims `count = 5` but which holds only 2 complete band
records; it decodes to exactly `(14 - 4) / 5 = 2` bands. -/
theorem unpack_eq_state_truncation_witness :
    4 ≤ ([1, 128, 187, 5, 0, 0, 0, 0, 0, 3, 1, 2, 3, 4] : List ℕ).length ∧
    (([1, 128, 187, 5, 0, 0, 0, 0, 0, 3, 1, 2, 3, 4] : List ℕ).length - 4) / 5 <
      ([1, 128, 187, 5, 0, 0, 0, 0, 0, 3, 1, 2, 3, 4] : List ℕ).getD 3 0 ∧
    ∃ st, unpack_eq_state [1, 128, 187, 5, 0, 0, 0, 0, 0, 3, 1, 2, 3, 4] = some st ∧
      st.eq.length =
        (([1, 128, 187, 5, 0, 0, 0, 0, 0, 3, 1, 2, 3, 4] : List ℕ).length - 4) / 5 :=
  ⟨by decide, by decide,
    unpack_eq_state_truncation.2 [1, 128, 187, 5, 0, 0, 0, 0, 0, 3, 1, 2, 3, 4]
      (by decide) (by decide)⟩

/-- C9: out-of-range enumeration codes decode to the index-0 entry.  For any
complete EQ band record whose type code is outside `EQ_TYPE_TEXTS`, the
decoded band's `type` is the index-0 text; analogously, any complete
crossover row (in the A block or the B block) whose mode code is outside
`XO_MODE_TEXTS` or whose topology code is outside `XO_TOPO_TEXTS` decodes to
the respective index-0 text, with no failure in either case. -/
theorem decode_out_of_range_fallback :
    (∀ (data : List ℕ) (i : ℕ), 4 ≤ data.length → i < data.getD 3 0 →
      4 + 5 * i + 5 ≤ data.length → EQ_TYPE_TEXTS.length ≤ data.getD (4 + 5 * i) 0 →
      ∃ st b, unpack_eq_state data = some st ∧ st.eq.get? i = some b ∧
        b.type = EQ_TYPE_TEXTS.getD 0 "") ∧
    (∀ (data : List ℕ) (i : ℕ), 6 ≤ data.length → i < data.getD 3 0 →
      5 + 6 * i + 6 ≤ data.length →
      ∃ st row, unpack_xo_state data = some st ∧ st.A.get? i = some row ∧
        (XO_MODE_TEXTS.length ≤ data.getD (5 + 6 * i) 0 →
          row.mode = XO_MODE_TEXTS.getD 0 "") ∧
        (XO_TOPO_TEXTS.length ≤ data.getD (5 + 6 * i + 1) 0 →
          row.topology = XO_TOPO_TEXTS.getD 0 "")) ∧
    (∀ (data : List ℕ) (i : ℕ), 6 ≤ data.length → i < data.getD 4 0 →
      5 + 6 * min (data.getD 3 0) ((data.length - 5) / 6) + 6 * i + 6 ≤ data.length →
      ∃ st row, unpack_xo_state data = some st ∧ st.B.get? i = some row ∧
        (XO_MODE_TEXTS.length ≤
            data.getD (5 + 6 * min (data.getD 3 0) ((data.length - 5) / 6) + 6 * i) 0 →
          row.mode = XO_MODE_TEXTS.getD 0 "") ∧
        (XO_TOPO_TEXTS.length ≤
            data.getD (5 + 6 * min (data.getD 3 0) ((data.length - 5) / 6) + 6 * i + 1) 0 →
          row.topology = XO_TOPO_TEXTS.getD 0 "")) := by
  refine ⟨?_, ?_, ?_⟩
  · intro data i h4 hi hrec htype
    obtain ⟨st, hst, hl, hj⟩ := unpack_eq_state_spec data h4
    have hilt : i < st.eq.length := by rw [hl]; omega
    refine ⟨st, eq_band_at data (4 + 5 * i), hst, hj i hilt, ?_⟩
    simp only [eq_band_at, mk_eq_band]
    rw [if_neg (by omega)]
  · intro data i h6 hi hrec
    obtain ⟨st, hst, hAl, hAj, -, -⟩ := unpack_xo_state_spec data h6
    have hilt : i < st.A.length := by rw [hAl]; omega
    refine ⟨st, xo_row_at data (5 + 6 * i), hst, hAj i hilt, ?_, ?_⟩
    · intro hmode
      simp only [xo_row_at, mk_xo_row]
      rw [if_neg (by omega)]
    · intro htopo
      simp only [xo_row_at, mk_xo_row]
      rw [if_neg (by omega)]
  · intro data i h6 hi hrec
    obtain ⟨st, hst, hAl, -, hBl, hBj⟩ := unpack_xo_state_spec data h6
    have hilt : i < st.B.length := by rw [hBl, hAl]; omega
    refine ⟨st, xo_row_at data (5 + 6 * st.A.length + 6 * i), hst, hBj i hilt, ?_, ?_⟩
    · intro hmode
      rw [hAl]
      simp only [xo_row_at, mk_xo_row]
      rw [if_neg (by omega)]
    · intro htopo
      rw [hAl]
      simp only [xo_row_at, mk_xo_row]
      rw [if_neg (by omega)]

/-- C9 witness: the fallback theorem applied to concrete blobs — an EQ blob
with one record whose type code is 42 (≥ 10), and an XO blob with one A row
(mode 9 ≥ 6, topology 9 ≥ 5) and one B row (mode 7 ≥ 6, topology 8 ≥ 5). -/
theorem decode_out_of_range_fallback_witness :
    (4 ≤ ([1, 0, 0, 1, 42, 0, 0, 0, 0] : List ℕ).length ∧
      0 < ([1, 0, 0, 1, 42, 0, 0, 0, 0] : List ℕ).getD 3 0 ∧
      4 + 5 * 0 + 5 ≤ ([1, 0, 0, 1, 42, 0, 0, 0, 0] : List ℕ).length ∧
      EQ_TYPE_TEXTS.length ≤ ([1, 0, 0, 1, 42, 0, 0, 0, 0] : List ℕ).getD (4 + 5 * 0) 0 ∧
      ∃ st b, unpack_eq_state [1, 0, 0, 1, 42, 0, 0, 0, 0] = some st ∧
        st.eq.get? 0 = some b ∧ b.type = EQ_TYPE_TEXTS.getD 0 "") ∧
    (∃ st row, unpack_xo_state [1, 0, 0, 1, 1, 9, 9, 0, 0, 0, 0, 7, 8, 0, 0, 0, 0] = some st ∧
      st.A.get? 0 = some row ∧
      (XO_MODE_TEXTS.length ≤
          ([1, 0, 0, 1, 1, 9, 9, 0, 0, 0, 0, 7, 8, 0, 0, 0, 0] : List ℕ).getD (5 + 6 * 0) 0 →
        row.mode = XO_MODE_TEXTS.getD 0 "") ∧
      (XO_TOPO_TEXTS.length ≤
          ([1, 0, 0, 1, 1, 9, 9, 0, 0, 0, 0, 7, 8, 0, 0, 0, 0] : List ℕ).getD (5 + 6 * 0 + 1) 0 →
        row.topology = XO_TOPO_TEXTS.getD 0 "")) ∧
    (∃ st row, unpack_xo_state [1, 0, 0, 1, 1, 9, 9, 0, 0, 0, 0, 7, 8, 0, 0, 0, 0] = some st ∧
      st.B.get? 0 = some row ∧
      (XO_MODE_TEXTS.length ≤
          ([1, 0, 0, 1, 1, 9, 9, 0, 0, 0, 0, 7, 8, 0, 0, 0, 0] : List ℕ).getD
            (5 + 6 * min (([1, 0, 0, 1, 1, 9, 9, 0, 0, 0, 0, 7, 8, 0, 0, 0, 0] : List ℕ).getD 3 0)
              ((([1, 0, 0, 1, 1, 9, 9, 0, 0, 0, 0, 7, 8, 0, 0, 0, 0] : List ℕ).length - 5) / 6) +
              6 * 0) 0 →
        row.mode = XO_MODE_TEXTS.getD 0 "") ∧
      (XO_TOPO_TEXTS.length ≤
          ([1, 0, 0, 1, 1, 9, 9, 0, 0, 0, 0, 7, 8, 0, 0, 0, 0] : List ℕ).getD
            (5 + 6 * min (([1, 0, 0, 1, 1, 9, 9, 0, 0, 0, 0, 7, 8, 0, 0, 0, 0] : List ℕ).getD 3 0)
              ((([1, 0, 0, 1, 1, 9, 9, 0, 0, 0, 0, 7, 8, 0, 0, 0, 0] : List ℕ).length - 5) / 6) +
              6 * 0 + 1) 0 →
        row.topology = XO_TOPO_TEXTS.getD 0 "")) :=
  ⟨⟨by decide, by decide, by decide, by decide,
     decode_out_of_range_fallback.1 [1, 0, 0, 1, 42, 0, 0, 0, 0] 0
       (by decide) (by decide) (by decide) (by decide)⟩,
   decode_out_of_range_fallback.2.1 [1, 0, 0, 1, 1, 9, 9, 0, 0, 0, 0, 7, 8, 0, 0, 0, 0] 0
     (by decide) (by decide) (by decide),
   decode_out_of_range_fallback.2.2 [1, 0, 0, 1, 1, 9, 9, 0, 0, 0, 0, 7, 8, 0, 0, 0, 0] 0
     (by decide) (by decide) (by decide)⟩

/-- C5 witness: the round-trip theorem applied at `db = 1/3` (in `[-24, 24]`)
and at `x = 3/2` (whose scaled value `round(3/2 * 128) = 192` is in int16
range). -/
theorem codec_roundtrip_quantization_witness :
    ((-24 : ℚ) ≤ 1 / 3 ∧ (1 / 3 : ℚ) ≤ 24 ∧
      |_i8_q25_to_db (_db_to_i8_q25 (1 / 3)) - 1 / 3| ≤ 1 / 4) ∧
    ((-32768 ≤ pyRound ((3 / 2 : ℚ) * 128) ∧ pyRound ((3 / 2 : ℚ) * 128) ≤ 32767) ∧
      |_i16_q9_7_to_lin (_lin_to_i16_q9_7 (3 / 2)).1 (_lin_to_i16_q9_7 (3 / 2)).2 - 3 / 2| ≤ 1 / 128) :=
  ⟨⟨by norm_num, by norm_num,
     codec_roundtrip_quantization.1 (1 / 3) (by norm_num) (by norm_num)⟩,
   ⟨⟨by rw [pyRound_eq_of_eq_intCast 192 _ (by norm_num)]; norm_num,
     by rw [pyRound_eq_of_eq_intCast 192 _ (by norm_num)]; norm_num⟩,
     codec_roundtrip_quantization.2 (3 / 2)
       (by rw [pyRound_eq_of_eq_intCast 192 _ (by norm_num)]; norm_num)
       (by rw [pyRound_eq_of_eq_intCast 192 _ (by norm_num)]; norm_num)⟩⟩

/-- C1: `run` retry semantics.  Whenever the first ensure succeeds with link
`l1` and `fn` raises on its first invocation: with `retry = true` the manager
closes the transport and reopens it exactly once between the two attempts
(the trace between `invoke 0` and `invoke 1` is exactly `[close, openLink]`)
and re-invokes `fn` exactly once more, a second raise propagating to the
caller; with `retry = false` the first failure propagates right after the
close and `fn` is invoked exactly once (the ensure trace `evs1` contains no
invocations). -/
theorem run_retry_once_semantics {T : Type} (detect : String) (fnBeh : ℕ → String → Option T)
    (port : Option String) (auto : Bool) (s s1 : MgrState) (l1 t2 : String) (evs1 : List Ev)
    (hens1 : ensure_link_locked detect port auto s = (Except.ok l1, s1, evs1))
    (hfail0 : fnBeh 0 l1 = none)
    (hens2 : ensure_link_locked detect port auto ⟨none, ""⟩ =
      (Except.ok t2, ⟨some t2, t2⟩, [Ev.openLink t2])) :
    (∀ i, Ev.invoke i ∉ evs1) ∧
    (fnBeh 1 t2 = none →
      run detect fnBeh port auto true s =
        (Except.error (PyExc.fnExc 1), ⟨some t2, t2⟩,
          evs1 ++ [Ev.invoke 0, Ev.close, Ev.openLink t2, Ev.invoke 1])) ∧
    (∀ v, fnBeh 1 t2 = some v →
      run detect fnBeh port auto true s =
        (Except.ok v, ⟨some t2, t2⟩,
          evs1 ++ [Ev.invoke 0, Ev.close, Ev.openLink t2, Ev.invoke 1])) ∧
    (run detect fnBeh port auto false s =
      (Except.error (PyExc.fnExc 0), ⟨none, ""⟩, evs1 ++ [Ev.invoke 0, Ev.close])) := by
  have hs1 := (ensure_ok_shape _ _ _ _ _ _ _ hens1).1
  have hclose : close_locked s1 = (⟨none, ""⟩, [Ev.close]) := by
    simp [close_locked, hs1]
  refine ⟨(ensure_ok_shape _ _ _ _ _ _ _ hens1).2, ?_, ?_, ?_⟩
  · intro hf1
    simp only [run, hens1, hfail0, hclose, hens2, hf1, if_pos]
    simp
  · intro v hf1
    simp only [run, hens1, hfail0, hclose, hens2, hf1, if_pos]
    simp
  · simp only [run, hens1, hfail0, hclose, Bool.false_eq_true, if_false]
    simp

/-- C1 witness: the retry theorem at a concrete instance — already connected
to port "P", auto-detect returning "P", and a wrapped function that always
raises. -/
theorem run_retry_once_semantics_witness :
    ensure_link_locked "P" none true ⟨some "P", "P"⟩ =
        (Except.ok "P", ⟨some "P", "P"⟩, ([] : List Ev)) ∧
    (fun (_ : ℕ) (_ : String) => (none : Option Unit)) 0 "P" = none ∧
    ensure_link_locked "P" none true ⟨none, ""⟩ =
        (Except.ok "P", ⟨some "P", "P"⟩, [Ev.openLink "P"]) ∧
    ((∀ i, Ev.invoke i ∉ ([] : List Ev)) ∧
      ((fun (_ : ℕ) (_ : String) => (none : Option Unit)) 1 "P" = none →
        run "P" (fun _ _ => (none : Option Unit)) none true true ⟨some "P", "P"⟩ =
          (Except.error (PyExc.fnExc 1), ⟨some "P", "P"⟩,
            [] ++ [Ev.invoke 0, Ev.close, Ev.openLink "P", Ev.invoke 1])) ∧
      (∀ v, (fun (_ : ℕ) (_ : String) => (none : Option Unit)) 1 "P" = some v →
        run "P" (fun _ _ => (none : Option Unit)) none true true ⟨some "P", "P"⟩ =
          (Except.ok v, ⟨some "P", "P"⟩,
            [] ++ [Ev.invoke 0, Ev.close, Ev.openLink "P", Ev.invoke 1])) ∧
      (run "P" (fun _ _ => (none : Option Unit)) none true false ⟨some "P", "P"⟩ =
        (Except.error (PyExc.fnExc 0), ⟨none, ""⟩, [] ++ [Ev.invoke 0, Ev.close]))) :=
  ⟨rfl, rfl, rfl,
    run_retry_once_semantics "P" (fun _ _ => none) none true
      ⟨some "P", "P"⟩ ⟨some "P", "P"⟩ "P" "P" [] rfl rfl rfl⟩

/-- C2 counterexample: with `retry = true` and a wrapped function that raises
on both attempts, `run` propagates the second failure while the freshly
reconnected link is still installed — `is_connected` is `true` and
`current_port` is non-empty after the error, contradicting the claim that
every propagated transport failure leaves the link state destroyed. -/
theorem run_double_failure_keeps_link_open :
    (run "P" (fun _ _ => (none : Option Unit)) none true true ⟨some "P", "P"⟩).1 =
      Except.error (PyExc.fnExc 1) ∧
    is_connected (run "P" (fun _ _ => (none : Option Unit)) none true true ⟨some "P", "P"⟩).2.1 =
      true ∧
    current_port (run "P" (fun _ _ => (none : Option Unit)) none true true ⟨some "P", "P"⟩).2.1 =
      "P" :=
  ⟨rfl, rfl, rfl⟩

/-- C2 (amended): the first failure of a wrapped operation always destroys
the link state (transport closed, link `none`, port cleared) before any
retry or propagation: with `retry = false` the error reaches the caller with
`is_connected() = false` and `current_port() = ""`, and likewise when
`retry = true` and the reconnect attempt itself fails; but when the retried
invocation fails, that error propagates with the freshly reconnected link
still installed (`is_connected() = true`). -/
theorem run_failure_teardown {T : Type} (detect : String) (fnBeh : ℕ → String → Option T)
    (port : Option String) (auto : Bool) (s s1 : MgrState) (l1 : String) (evs1 : List Ev)
    (hens1 : ensure_link_locked detect port auto s = (Except.ok l1, s1, evs1))
    (hfail0 : fnBeh 0 l1 = none) :
    (run detect fnBeh port auto false s =
        (Except.error (PyExc.fnExc 0), ⟨none, ""⟩, evs1 ++ [Ev.invoke 0, Ev.close]) ∧
      is_connected (⟨none, ""⟩ : MgrState) = false ∧
      current_port (⟨none, ""⟩ : MgrState) = "") ∧
    (ensure_link_locked detect port auto ⟨none, ""⟩ = (Except.error (), ⟨none, ""⟩, []) →
      run detect fnBeh port auto true s =
        (Except.error PyExc.noDeviceFound, ⟨none, ""⟩, evs1 ++ [Ev.invoke 0, Ev.close]) ∧
      is_connected (⟨none, ""⟩ : MgrState) = false) ∧
    (∀ t2, ensure_link_locked detect port auto ⟨none, ""⟩ =
        (Except.ok t2, ⟨some t2, t2⟩, [Ev.openLink t2]) →
      fnBeh 1 t2 = none →
      run detect fnBeh port auto true s =
        (Except.error (PyExc.fnExc 1), ⟨some t2, t2⟩,
          evs1 ++ [Ev.invoke 0, Ev.close, Ev.openLink t2, Ev.invoke 1]) ∧
      is_connected (⟨some t2, t2⟩ : MgrState) = true) := by
  have hs1 := (ensure_ok_shape _ _ _ _ _ _ _ hens1).1
  have hclose : close_locked s1 = (⟨none, ""⟩, [Ev.close]) := by
    simp [close_locked, hs1]
  refine ⟨⟨?_, rfl, rfl⟩, ?_, ?_⟩
  · simp only [run, hens1, hfail0, hclose, Bool.false_eq_true, if_false]
    simp
  · intro hensfail
    refine ⟨?_, rfl⟩
    simp only [run, hens1, hfail0, hclose, hensfail, if_pos]
    simp
  · intro t2 hens2 hf1
    refine ⟨?_, rfl⟩
    simp only [run, hens1, hfail0, hclose, hens2, hf1, if_pos]
    simp

/-- C2 (amended) witness: the teardown theorem at a concrete instance —
connected to "P", auto-detect finding nothing (empty), wrapped function
always raising; the `retry = false` part and the failed-reconnect part are
both exercised. -/
theorem run_failure_teardown_witness :
    ensure_link_locked "" none true ⟨some "P", "P"⟩ =
        (Except.ok "P", ⟨some "P", "P"⟩, ([] : List Ev)) ∧
    (fun (_ : ℕ) (_ : String) => (none : Option Unit)) 0 "P" = none ∧
    ((run "" (fun _ _ => (none : Option Unit)) none true false ⟨some "P", "P"⟩ =
        (Except.error (PyExc.fnExc 0), ⟨none, ""⟩, [] ++ [Ev.invoke 0, Ev.close]) ∧
      is_connected (⟨none, ""⟩ : MgrState) = false ∧
      current_port (⟨none, ""⟩ : MgrState) = "") ∧
    (ensure_link_locked "" none true ⟨none, ""⟩ = (Except.error (), ⟨none, ""⟩, []) →
      run "" (fun _ _ => (none : Option Unit)) none true true ⟨some "P", "P"⟩ =
        (Except.error PyExc.noDeviceFound, ⟨none, ""⟩, [] ++ [Ev.invoke 0, Ev.close]) ∧
      is_connected (⟨none, ""⟩ : MgrState) = false) ∧
    (∀ t2, ensure_link_locked "" none true ⟨none, ""⟩ =
        (Except.ok t2, ⟨some t2, t2⟩, [Ev.openLink t2]) →
      (fun (_ : ℕ) (_ : String) => (none : Option Unit)) 1 t2 = none →
      run "" (fun _ _ => (none : Option Unit)) none true true ⟨some "P", "P"⟩ =
        (Except.error (PyExc.fnExc 1), ⟨some t2, t2⟩,
          [] ++ [Ev.invoke 0, Ev.close, Ev.openLink t2, Ev.invoke 1]) ∧
      is_connected (⟨some t2, t2⟩ : MgrState) = true)) :=
  ⟨rfl, rfl,
    run_failure_teardown "" (fun _ _ => none) none true
      ⟨some "P", "P"⟩ ⟨some "P", "P"⟩ "P" [] rfl rfl⟩

/-- C4: `run_if_idle` lock semantics.  When the manager's lock is held by
another caller (a failed non-blocking acquire), it returns the absent value
at once, with the link state untouched and no transport or invocation events;
when the lock is free it produces exactly the result, final state and event
trace of `run`. -/
theorem run_if_idle_lock_semantics {T : Type} (detect : String) (fnBeh : ℕ → String → Option T)
    (port : Option String) (auto retry : Bool) (s : MgrState) :
    run_if_idle detect fnBeh port auto retry true s = (none, s, []) ∧
    run_if_idle detect fnBeh port auto retry false s =
      (some (run detect fnBeh port auto retry s).1, (run detect fnBeh port auto retry s).2) := by
  constructor
  · rfl
  · cases hE : ensure_link_locked detect port auto s with
    | mk r1 rest =>
      obtain ⟨s1, evs1⟩ := rest
      cases r1 with
      | error e => simp [run_if_idle, run, hE]
      | ok l1 =>
        cases hf : fnBeh 0 l1 with
        | some v => simp [run_if_idle, run, hE, hf]
        | none =>
          cases retry with
          | false => simp [run_if_idle, run, hE, hf]
          | true =>
            cases hE2 : ensure_link_locked detect port auto (close_locked s1).1 with
            | mk r2 rest2 =>
              obtain ⟨s3, evs3⟩ := rest2
              cases r2 with
              | error e => simp [run_if_idle, run, hE, hf, hE2]
              | ok l2 =>
                cases hf1 : fnBeh 1 l2 with
                | some v => simp [run_if_idle, run, hE, hf, hE2, hf1]
                | none => simp [run_if_idle, run, hE, hf, hE2, hf1]

end BHSD
